import Mathlib

/-!
Shallow embedding of the syntax-repair scripts of this repository
(`clean_test_utils.py`, `fix_remaining_syntax.py`, `fix_test_utils_syntax.py`)
and proofs about them.  Text is modelled as `List Char` and a document as a
list of lines (`List (List Char)`), the result of Python's
`content.split('\n')`.
-/

set_option autoImplicit false

namespace Repo

/-- Number of occurrences of the character `c` in a line, Python's
`line.count(c)` for a single-character argument. -/
def countCh (c : Char) : List Char → Nat
  | [] => 0
  | x :: xs => (if x = c then 1 else 0) + countCh c xs

/-- Net delimiter balance contributed by one line for a delimiter pair,
`line.count(openC) - line.count(closeC)` as a signed integer. -/
def chDelta (openC closeC : Char) (l : List Char) : Int :=
  (countCh openC l : Int) - (countCh closeC l : Int)

/-- Brace balance of one line, `line.count('{') - line.count('}')` from
`clean_test_utils.py`. -/
def braceDelta (l : List Char) : Int :=
  chDelta '{' '}' l

/-- Parenthesis balance of one line. -/
def parenDelta (l : List Char) : Int :=
  chDelta '(' ')' l

/-- Substring containment test, Python's `pat in line`. -/
def containsSub (pat : List Char) : List Char → Bool
  | [] => pat.isPrefixOf []
  | x :: xs => pat.isPrefixOf (x :: xs) || containsSub pat xs

/-- The start marker searched for by `fix_test_utils_comprehensive` in
`clean_test_utils.py`. -/
def markerStr : List Char :=
  "const responses: Record<string, (args: any) => any> = \x7b".data

/-- The scan loop of `fix_test_utils_comprehensive`: walk the lines with the
current index `i`, the recorded start line `st` and the running brace count
`bc`.  A line containing the marker (re)sets the start and resets the count
to 1; afterwards each line adds `count('{') - count('}')`, and the first
line at which the count reaches 0 is returned as the end. -/
def scanResp : List (List Char) → Nat → Option Nat → Int → Option (Nat × Nat)
  | [], _, _, _ => none
  | l :: ls, i, st, bc =>
    if containsSub markerStr l then
      scanResp ls (i + 1) (some i) 1
    else
      match st with
      | none => scanResp ls (i + 1) none bc
      | some s =>
        if bc + braceDelta l = 0 then some (s, i)
        else scanResp ls (i + 1) (some s) (bc + braceDelta l)

/-- The span of the `responses` object found by `clean_test_utils.py`:
`(start_line, end_line)`, or `none` when either is missing. -/
def findSpan (lines : List (List Char)) : Option (Nat × Nat) :=
  scanResp lines 0 none 0

/-- Python's `sep.join(parts)`. -/
def pyJoin (sep : List Char) : List (List Char) → List Char
  | [] => []
  | [l] => l
  | l :: l' :: ls => l ++ sep ++ pyJoin sep (l' :: ls)

/-- The literal `new_responses` block of `clean_test_utils.py` (opaque
replacement payload, kept verbatim). -/
def newResponses : List (List Char) :=
  [ "  const responses: Record<string, (args: any) => any> = \x7b".data,
    "    'agent.property.analysis': (args) => (\x7b".data,
    "      content: [".data,
    "        \x7b".data,
    "          type: 'text',".data,
    "          text: `# Property Analysis for $\x7bargs.context?.domain || 'domain'\x7d".data,
    "".data,
    "## Recommended Product".data,
    "**Ion Standard** (prd_Fresca) - Best for general web acceleration".data,
    "".data,
    "## Configuration Recommendations".data,
    "- Origin server: $\x7bargs.context?.origin || 'origin.example.com'\x7d".data,
    "- Caching: Standard web content".data,
    "- Compression: Enabled".data,
    "- HTTP/2 optimization: Enabled".data,
    "".data,
    "## Next Steps".data,
    "1. Create property with Ion Standard product".data,
    "2. Configure origin and hostnames".data,
    "3. Test on staging network".data,
    "4. Activate to production`,".data,
    "        \x7d,".data,
    "      ],".data,
    "    \x7d),".data,
    "".data,
    "    'property.create': (args) => \x7b".data,
    "      // Handle retry with corrected name first".data,
    "      if (args.propertyName === 'invalid-domain.com') \x7b".data,
    "        return \x7b".data,
    "          content: [".data,
    "            \x7b".data,
    "              type: 'text',".data,
    "              text: `✅ **Property Created Successfully!**".data,
    "".data,
    "## Property Details".data,
    "- **Name:** $\x7bargs.propertyName\x7d".data,
    "- **Property ID:** prp_124".data,
    "- **Product:** Ion Standard".data,
    "- **Contract:** Contract $\x7bargs.contractId\x7d".data,
    "- **Group:** Group $\x7bargs.groupId\x7d".data,
    "- **Status:** 🔵 NEW (Not yet activated)".data,
    "".data,
    "Successfully created property with corrected name.`,".data,
    "            \x7d,".data,
    "          ],".data,
    "        \x7d;".data,
    "      \x7d".data,
    "      // Handle validation errors for invalid names".data,
    "      if (args.propertyName?.includes(' ') || args.propertyName?.includes('!@#')) \x7b".data,
    "        return \x7b".data,
    "          content: [".data,
    "            \x7b".data,
    "              type: 'text',".data,
    "              text: `❌ Cannot create property - validation errors:".data,
    "".data,
    "- Property name contains invalid characters".data,
    "".data,
    "Property name can only contain letters, numbers, hyphens, dots, and underscores".data,
    "".data,
    "**Suggestion:** Try using a valid name instead, such as \"$\x7bargs.propertyName?.replace(/[^a-zA-Z0-9.-_]/g, '-')\x7d\"`,".data,
    "            \x7d,".data,
    "          ],".data,
    "        \x7d;".data,
    "      \x7d".data,
    "      return \x7b".data,
    "        content: [".data,
    "          \x7b".data,
    "            type: 'text',".data,
    "            text: `✅ **Property Created Successfully!**".data,
    "".data,
    "## Property Details".data,
    "- **Name:** $\x7bargs.propertyName\x7d".data,
    "- **Property ID:** prp_123".data,
    "- **Product:** Ion Standard".data,
    "- **Contract:** Contract $\x7bargs.contractId\x7d".data,
    "- **Group:** Group $\x7bargs.groupId\x7d".data,
    "- **Status:** 🔵 NEW (Not yet activated)`,".data,
    "          \x7d,".data,
    "        ],".data,
    "      \x7d;".data,
    "    \x7d,".data,
    "  \x7d;".data ]

/-- The whole repair of `fix_test_utils_comprehensive` on the already split
line stream: locate the `responses` object, and either report the failure
(the script prints and returns without writing) or produce the document
that is written back: the lines before the span, the replacement block and
the lines after the span, joined with the separator `'\\n'` (the two
characters backslash and `n`, exactly as in the source). -/
def fix_test_utils_comprehensive (lines : List (List Char)) :
    Except (List Char) (List Char) :=
  match findSpan lines with
  | none => .error "Could not find responses object".data
  | some (s, e) =>
      .ok (pyJoin "\\n".data (lines.take s ++ newResponses ++ lines.drop (e + 1)))

/-- Structural span replacement: the lines before `s`, then `newL`, then the
lines after `e` (`lines[:start_line] + new + lines[end_line + 1:]`). -/
def replace_span (lines : List (List Char)) (s e : Nat)
    (newL : List (List Char)) : List (List Char) :=
  lines.take s ++ newL ++ lines.drop (e + 1)

/-- First local index at which the running balance reaches exactly 0, where
each line contributes `delta line`; mirrors the per-line counting loop. -/
def firstZero (delta : List Char → Int) (bc : Int) :
    List (List Char) → Option Nat
  | [] => none
  | l :: ls =>
    if bc + delta l = 0 then some 0
    else (firstZero delta (bc + delta l) ls).map (· + 1)

/-- Running balance after consuming the first `k` lines, starting at `bc`. -/
def runningDepth (delta : List Char → Int) (bc : Int)
    (ls : List (List Char)) (k : Nat) : Int :=
  (ls.take k).foldl (fun a l => a + delta l) bc

/-- Modelled from the spec: `locate_balanced_span(lines, start_index,
open_char, close_char, initial_depth)` — the generic delimiter-balance
scanner of §4.1, which the sources only instantiate for braces.  It iterates
line indices from `start_index + 1` upward, adds
`count(open_char) - count(close_char)` per line, and returns the first index
at which the depth reaches exactly 0, or `none` (Unterminated-Construct)
when the stream is exhausted first. -/
def locate_balanced_span (lines : List (List Char)) (startIdx : Nat)
    (openC closeC : Char) (depth : Int) : Option Nat :=
  (firstZero (chDelta openC closeC) depth (lines.drop (startIdx + 1))).map
    (· + (startIdx + 1))

/-- Whitespace characters for the ASCII range of Python's `\s` and of
`str.strip()`. -/
def isSpaceChar (c : Char) : Bool :=
  c == ' ' || c == '\t' || c == '\n' || c == '\r' || c == '\x0b' || c == '\x0c'

/-- Python's `line.strip()` on the ASCII whitespace range. -/
def pyStrip (l : List Char) : List Char :=
  ((l.dropWhile isSpaceChar).reverse.dropWhile isSpaceChar).reverse

/-- Python's `line.replace('},', '}),')`: replace every non-overlapping
occurrence, scanning left to right. -/
def replaceCloser : List Char → List Char
  | '}' :: ',' :: rest => '}' :: ')' :: ',' :: replaceCloser rest
  | c :: rest => c :: replaceCloser rest
  | [] => []

/-- Drop the longest prefix of characters satisfying `p` (maximal munch). -/
def skipRun (p : Char → Bool) : List Char → List Char
  | [] => []
  | x :: xs => if p x then skipRun p xs else x :: xs

/-- Consume one literal character. -/
def chompLit (c : Char) : List Char → Option (List Char)
  | [] => none
  | x :: xs => if x = c then some xs else none

/-- Consume one or more characters satisfying `p`. -/
def chompPlus (p : Char → Bool) : List Char → Option (List Char)
  | [] => none
  | x :: xs => if p x then some (skipRun p xs) else none

/-- The anchored test `re.match(r"^\s*'[^']+'\s*:\s*\([^)]*\)\s*=>\s*\(\{",
line)` from `fix_test_utils_syntax.py`.  Every repetition in that pattern is
over a character class that excludes the following literal, so maximal-munch
matching is equivalent to the regex. -/
def startsArrow (l : List Char) : Bool :=
  (do
    let s := skipRun isSpaceChar l
    let s ← chompLit '\'' s
    let s ← chompPlus (fun c => !(c == '\'')) s
    let s ← chompLit '\'' s
    let s := skipRun isSpaceChar s
    let s ← chompLit ':' s
    let s := skipRun isSpaceChar s
    let s ← chompLit '(' s
    let s := skipRun (fun c => !(c == ')')) s
    let s ← chompLit ')' s
    let s := skipRun isSpaceChar s
    let s ← chompLit '=' s
    let s ← chompLit '>' s
    let s := skipRun isSpaceChar s
    let s ← chompLit '(' s
    let _ ← chompLit '{' s
    pure ()).isSome

/-- The inner `while` loop of `fix_test_utils_syntax.py`, entered at line
index `i` with running brace count `bc` (and the never-updated paren count
fixed at 1, so the loop only stops on the break or on exhaustion).  Returns
the lines appended by the loop, the index at which the break fired (if it
did) and the unconsumed remainder. -/
def scanClose (i : Nat) (bc : Int) :
    List (List Char) → List (List Char) × Option Nat × List (List Char)
  | [] => ([], none, [])
  | l :: ls =>
    let bc' := bc + braceDelta l
    if bc' = 0 ∧ pyStrip l = "\x7d,".data then
      ([replaceCloser l], some i, ls)
    else
      let r := scanClose (i + 1) bc' ls
      (l :: r.1, r.2.1, r.2.2)

/-- The whole module-level scan loop of `fix_test_utils_syntax.py` as a
state machine over the line stream: `none` is the outer loop, `some bc` is
the inner loop with running brace count `bc`. -/
def procAux : Option Int → List (List Char) → List (List Char)
  | _, [] => []
  | none, l :: ls =>
    if startsArrow l then l :: procAux (some 1) ls
    else l :: procAux none ls
  | some bc, l :: ls =>
    let bc' := bc + braceDelta l
    if bc' = 0 ∧ pyStrip l = "\x7d,".data then
      replaceCloser l :: procAux none ls
    else l :: procAux (some bc') ls

/-- The document transformation of `fix_test_utils_syntax.py` (its file
write receives `'\n'.join` of this). -/
def fixTestUtilsSyntax (lines : List (List Char)) : List (List Char) :=
  procAux none lines

/-- The closing pattern of the inner loop (`bracket_count == 0` and the
stripped line equal to `},`) never fires along the scan of `ls` started at
brace count `bc`. -/
def noCloseB (bc : Int) : List (List Char) → Bool
  | [] => true
  | l :: ls =>
    !(decide (bc + braceDelta l = 0 ∧ pyStrip l = "\x7d,".data)) &&
      noCloseB (bc + braceDelta l) ls

/-- Word characters, the ASCII range of the regex class `\w`
(`[a-zA-Z0-9_]`). -/
def isWordChar (c : Char) : Bool :=
  ('a' ≤ c && c ≤ 'z') || ('A' ≤ c && c ≤ 'Z') || ('0' ≤ c && c ≤ '9') || c == '_'

/-- Letters and underscore, the regex class `[a-zA-Z_]`. -/
def isIdentStart (c : Char) : Bool :=
  ('a' ≤ c && c ≤ 'z') || ('A' ≤ c && c ≤ 'Z') || c == '_'

/-- One item of a linearised regular expression.  Every repetition in the
patterns of `fix_remaining_syntax.py` is over a one-character class, so
this restricted item language covers them exactly; groups are delimited by
zero-width markers. -/
inductive PItem where
  | lit (c : Char)
  | cls (p : Char → Bool)
  | star (p : Char → Bool)
  | eol
  | openG
  | closeG (n : Nat)

/-- Matching state: the suffixes recorded at open-group markers. -/
abbrev GStack := List (List Char)

/-- Captured groups of a match, most recent first. -/
abbrev Groups := List (Nat × List Char)

/-- Match a pattern against the empty remainder: only zero-width items can
still succeed, and nothing is consumed. -/
def matchNil : List PItem → GStack → Groups → Option (Nat × Groups)
  | [], _, g => some (0, g)
  | .lit _ :: _, _, _ => none
  | .cls _ :: _, _, _ => none
  | .eol :: ps, st, g => matchNil ps st g
  | .star _ :: ps, st, g => matchNil ps st g
  | .openG :: ps, st, g => matchNil ps ([] :: st) g
  | .closeG n :: ps, st, g =>
    match st with
    | [] => none
    | r0 :: st' => matchNil ps st' ((n, r0) :: g)

/-- Match a pattern against the remainder `x :: xs`, where `recTail`
matches patterns against `xs`.  `star` is greedy with backtracking: it
first tries to consume `x` and stay in the star, and only on failure lets
the rest of the pattern match here.  `$` (`eol`) succeeds at a newline
(MULTILINE) without consuming it. -/
def matchCons (x : Char) (xs : List Char)
    (recTail : List PItem → GStack → Groups → Option (Nat × Groups)) :
    List PItem → GStack → Groups → Option (Nat × Groups)
  | [], _, g => some (0, g)
  | .lit c :: ps, st, g =>
    if x = c then (recTail ps st g).map (fun r => (r.1 + 1, r.2)) else none
  | .cls p :: ps, st, g =>
    if p x then (recTail ps st g).map (fun r => (r.1 + 1, r.2)) else none
  | .eol :: ps, st, g =>
    if x = '\n' then matchCons x xs recTail ps st g else none
  | .star p :: ps, st, g =>
    match (if p x then (recTail (.star p :: ps) st g).map (fun r => (r.1 + 1, r.2)) else none) with
    | some r => some r
    | none => matchCons x xs recTail ps st g
  | .openG :: ps, st, g => matchCons x xs recTail ps ((x :: xs) :: st) g
  | .closeG n :: ps, st, g =>
    match st with
    | [] => none
    | r0 :: st' =>
      matchCons x xs recTail ps st' ((n, r0.take (r0.length - (xs.length + 1))) :: g)

/-- Match a pattern at the start of `s`; on success return the number of
characters consumed and the captured groups. -/
def matchFrom : List Char → List PItem → GStack → Groups → Option (Nat × Groups)
  | [], ps, st, g => matchNil ps st g
  | x :: xs, ps, st, g => matchCons x xs (matchFrom xs) ps st g

/-- Whether the pattern matches at some position of `s` (Python
`re.search`). -/
def searchFrom (pat : List PItem) : List Char → Bool
  | [] => (matchFrom [] pat [] []).isSome
  | x :: xs => (matchFrom (x :: xs) pat [] []).isSome || searchFrom pat xs

/-- A rewrite rule: a pattern and a replacement built from the captured
groups. -/
structure Rule where
  pat : List PItem
  repl : Groups → List Char

/-- Captured text of group `n`, the regex back-reference `\n`. -/
def getG (g : Groups) (n : Nat) : List Char :=
  (g.lookup n).getD []

/-- Leftmost non-overlapping substitution (Python `re.sub`), with a fuel
argument that is always run at the length of the text: each step either
copies one character or consumes a non-empty match, so `s.length` fuel is
never exhausted. -/
def subGo (ru : Rule) : Nat → List Char → List Char
  | _, [] =>
    match matchFrom [] ru.pat [] [] with
    | some (_, g) => ru.repl g
    | none => []
  | 0, s => s
  | f + 1, x :: xs =>
    match matchFrom (x :: xs) ru.pat [] [] with
    | some (0, g) => ru.repl g ++ x :: subGo ru f xs
    | some (n + 1, g) => ru.repl g ++ subGo ru f (xs.drop n)
    | none => x :: subGo ru f xs

/-- `re.sub(rule.pat, rule.repl, s)`. -/
def subAll (ru : Rule) (s : List Char) : List Char :=
  subGo ru s.length s

/-- Number of non-overlapping matches replaced by `subAll` (the number of
occurrences of the pattern, in `re.sub`'s leftmost non-overlapping sense). -/
def countGo (ru : Rule) : Nat → List Char → Nat
  | _, [] => if (matchFrom [] ru.pat [] []).isSome then 1 else 0
  | 0, _ => 0
  | f + 1, x :: xs =>
    match matchFrom (x :: xs) ru.pat [] [] with
    | some (0, _) => 1 + countGo ru f xs
    | some (n + 1, _) => 1 + countGo ru f (xs.drop n)
    | none => countGo ru f xs

/-- Occurrence count of a rule's matcher in `s`. -/
def countMatches (ru : Rule) (s : List Char) : Nat :=
  countGo ru s.length s

/-- Sequence items for the literal characters of `s`. -/
def lits (s : String) : List PItem :=
  s.data.map .lit

/-- Zero or more `\s`. -/
def wsStar : List PItem :=
  [.star isSpaceChar]

/-- One or more characters of class `p` (`p+` = `p p*`). -/
def plusC (p : Char → Bool) : List PItem :=
  [.cls p, .star p]

/-- Rule `JSON\.stringify\(([^)]+),\s*$` → `JSON.stringify(\1),`
(MULTILINE). -/
def ruleStringify : Rule where
  pat := lits "JSON.stringify(" ++ [.openG] ++ plusC (fun c => !(c == ')')) ++
    [.closeG 1, .lit ','] ++ wsStar ++ [.eol]
  repl := fun g => "JSON.stringify(".data ++ getG g 1 ++ "),".data

/-- Rule `(\s+[a-zA-Z_][a-zA-Z0-9_]*:\s*\([^)]*\)\s*=>\s*\{[^}]*\}),\s*$`
→ `\1),` (MULTILINE). -/
def ruleObjectReturn : Rule where
  pat := [.openG] ++ plusC isSpaceChar ++ [.cls isIdentStart, .star isWordChar, .lit ':'] ++
    wsStar ++ [.lit '(', .star (fun c => !(c == ')')), .lit ')'] ++ wsStar ++
    lits "=>" ++ wsStar ++ [.lit '{', .star (fun c => !(c == '}')), .lit '}', .closeG 1, .lit ','] ++
    wsStar ++ [.eol]
  repl := fun g => getG g 1 ++ "),".data

/-- Rule `(\s+[a-zA-Z_][a-zA-Z0-9_]*:\s*\([^)]*\)\s*=>\s*\([^)]*\{[^}]*\}),\s*$`
→ `\1)),` (MULTILINE). -/
def ruleFnDef : Rule where
  pat := [.openG] ++ plusC isSpaceChar ++ [.cls isIdentStart, .star isWordChar, .lit ':'] ++
    wsStar ++ [.lit '(', .star (fun c => !(c == ')')), .lit ')'] ++ wsStar ++
    lits "=>" ++ wsStar ++ [.lit '(', .star (fun c => !(c == ')')), .lit '{',
      .star (fun c => !(c == '}')), .lit '}', .closeG 1, .lit ','] ++
    wsStar ++ [.eol]
  repl := fun g => getG g 1 ++ ")),".data

/-- Rule `logger\._error(["\'])\s*,\s*\{\s*_error\.message\s*\}`
→ ``logger.error(`Error: ${_error.message}`)``. -/
def ruleLogger : Rule where
  pat := lits "logger._error" ++ [.openG, .cls (fun c => c == '"' || c == '\''), .closeG 1] ++
    wsStar ++ [.lit ','] ++ wsStar ++ [.lit '{'] ++ wsStar ++
    lits "_error.message" ++ wsStar ++ [.lit '}']
  repl := fun _ => "logger.error(`Error: $\x7b_error.message\x7d`)".data

/-- Rule `(\w+:\s*[^,}\n]+)\s*\n\s*(\w+:)` → `\1,\n    \2`. -/
def ruleComma : Rule where
  pat := [.openG] ++ plusC isWordChar ++ [.lit ':'] ++ wsStar ++
    plusC (fun c => !(c == ',') && !(c == '}') && !(c == '\n')) ++ [.closeG 1] ++
    wsStar ++ [.lit '\n'] ++ wsStar ++ [.openG] ++ plusC isWordChar ++ [.lit ':', .closeG 2]
  repl := fun g => getG g 1 ++ ",\n    ".data ++ getG g 2

/-- Rule `catch\s*\(\s*error\s*\)` → `catch (_error)`. -/
def ruleCatch : Rule where
  pat := lits "catch" ++ wsStar ++ [.lit '('] ++ wsStar ++ lits "error" ++ wsStar ++ [.lit ')']
  repl := fun _ => "catch (_error)".data

/-- Rule `(\w+:\s*\([^)]*\)\s*=>\s*\([^}]*)\},\s*$` → `\1}),` (MULTILINE). -/
def ruleArrowReturn : Rule where
  pat := [.openG] ++ plusC isWordChar ++ [.lit ':'] ++ wsStar ++
    [.lit '(', .star (fun c => !(c == ')')), .lit ')'] ++ wsStar ++
    lits "=>" ++ wsStar ++ [.lit '(', .star (fun c => !(c == '}')), .closeG 1,
      .lit '}', .lit ','] ++ wsStar ++ [.eol]
  repl := fun g => getG g 1 ++ "\x7d),".data

/-- The ordered rule pipeline of `fix_file_syntax_errors`, exactly the
seven `re.sub` calls in source order. -/
def syntaxRules : List Rule :=
  [ruleStringify, ruleObjectReturn, ruleFnDef, ruleLogger, ruleComma,
   ruleCatch, ruleArrowReturn]

/-- Apply an ordered rule pipeline, each rule once, the output of one rule
feeding the next. -/
def apply_rules (rules : List Rule) (s : List Char) : List Char :=
  rules.foldl (fun t r => subAll r t) s

/-- The file system visible to the scripts: an association of paths to
contents. -/
abbrev FS := List (String × List Char)

/-- Read a file if it exists. -/
def readFS (fs : FS) (p : String) : Option (List Char) :=
  fs.lookup p

/-- Overwrite the content stored for path `p`. -/
def writeFS (fs : FS) (p : String) (c : List Char) : FS :=
  fs.map (fun e => if e.1 = p then (e.1, c) else e)

/-- `fix_file_syntax_errors(file_path)` from `fix_remaining_syntax.py`:
report `False` when the file does not exist; otherwise run the pipeline
and write the result back only when it differs from the original,
returning whether a rewrite happened. -/
def fix_file_syntax_errors (fs : FS) (p : String) : Bool × FS :=
  match readFS fs p with
  | none => (false, fs)
  | some content =>
    let c' := apply_rules syntaxRules content
    if c' = content then (false, fs) else (true, writeFS fs p c')

/-- The batch loop of `main`: run the repair on every file in order,
collecting the per-file results and threading the file system. -/
def runAll (fs : FS) : List String → List Bool × FS
  | [] => ([], fs)
  | p :: ps =>
    let r := fix_file_syntax_errors fs p
    let rest := runAll r.2 ps
    (r.1 :: rest.1, rest.2)

/-- The file list of `main` in `fix_remaining_syntax.py`. -/
def filesToFix : List String :=
  ["src/testing/test-utils.ts",
   "src/tools/analysis/cx-impact-analyzer.ts",
   "src/tools/analysis/fix-strategy.ts",
   "src/tools/analysis/intelligent-bug-analyzer-broken.ts",
   "src/utils/response-parsing.ts"]

/-- `main`: the count of files reported fixed and the final file system. -/
def mainRun (fs : FS) : Nat × FS :=
  let r := runAll fs filesToFix
  (r.1.count true, r.2)

/-! ### Lemmas about the `clean_test_utils.py` scanner -/

theorem runningDepth_cons (delta : List Char → Int) (bc : Int) (l : List Char)
    (ls : List (List Char)) (k : Nat) :
    runningDepth delta bc (l :: ls) (k + 1) =
      runningDepth delta (bc + delta l) ls k := by
  simp [runningDepth, List.take_succ_cons, List.foldl_cons]

theorem firstZero_spec (delta : List Char → Int) :
    ∀ (ls : List (List Char)) (bc : Int) (k : Nat),
      firstZero delta bc ls = some k →
        k < ls.length ∧ runningDepth delta bc ls (k + 1) = 0 ∧
        ∀ j, j < k → runningDepth delta bc ls (j + 1) ≠ 0 := by
  intro ls
  induction ls with
  | nil => intro bc k h; simp [firstZero] at h
  | cons l ls ih =>
    intro bc k h
    by_cases hz : bc + delta l = 0
    · simp only [firstZero, if_pos hz] at h
      obtain rfl : (0 : Nat) = k := Option.some.inj h
      refine ⟨by simp, ?_, by omega⟩
      rw [runningDepth_cons]
      simpa [runningDepth] using hz
    · simp only [firstZero, if_neg hz, Option.map_eq_some'] at h
      obtain ⟨k', hk', rfl⟩ := h
      obtain ⟨hlen, hdep, hmin⟩ := ih (bc + delta l) k' hk'
      refine ⟨by simpa using Nat.succ_lt_succ hlen, ?_, ?_⟩
      · rw [runningDepth_cons]; exact hdep
      · intro j hj
        match j with
        | 0 =>
          rw [runningDepth_cons]
          simpa [runningDepth] using hz
        | j' + 1 =>
          rw [runningDepth_cons]
          exact hmin j' (by omega)

theorem firstZero_eq_none (delta : List Char → Int) (ls : List (List Char))
    (bc : Int) (h : ∀ k, k < ls.length → runningDepth delta bc ls (k + 1) ≠ 0) :
    firstZero delta bc ls = none := by
  cases hz : firstZero delta bc ls with
  | none => rfl
  | some k =>
    obtain ⟨hlen, hdep, _⟩ := firstZero_spec delta ls bc k hz
    exact absurd hdep (h k hlen)

theorem scanResp_no_marker_append (ls rest : List (List Char)) (i : Nat) (bc : Int)
    (h : ∀ l ∈ ls, containsSub markerStr l = false) :
    scanResp (ls ++ rest) i none bc = scanResp rest (i + ls.length) none bc := by
  induction ls generalizing i with
  | nil => simp
  | cons l ls ih =>
    have hl : containsSub markerStr l = false := h l (by simp)
    have hrest : ∀ x ∈ ls, containsSub markerStr x = false :=
      fun x hx => h x (by simp [hx])
    rw [List.cons_append]
    show (if containsSub markerStr l = true then _ else _) = _
    rw [if_neg (by simp [hl])]
    rw [ih (i + 1) hrest]
    have harith : i + 1 + ls.length = i + (l :: ls).length := by
      simp only [List.length_cons]; omega
    rw [harith]

theorem scanResp_counting (post : List (List Char)) :
    ∀ (i s : Nat) (bc : Int),
      (∀ l ∈ post, containsSub markerStr l = false) →
      scanResp post i (some s) bc =
        (firstZero braceDelta bc post).map (fun k => (s, i + k)) := by
  induction post with
  | nil => intro i s bc _; simp [scanResp, firstZero]
  | cons l ls ih =>
    intro i s bc h
    have hl : containsSub markerStr l = false := h l (by simp)
    have hrest : ∀ x ∈ ls, containsSub markerStr x = false :=
      fun x hx => h x (by simp [hx])
    show (if containsSub markerStr l = true then _ else _) = _
    rw [if_neg (by simp [hl])]
    by_cases hz : bc + braceDelta l = 0
    · simp [firstZero, hz]
    · simp only [firstZero, if_neg hz]
      rw [ih (i + 1) s (bc + braceDelta l) hrest]
      cases firstZero braceDelta (bc + braceDelta l) ls with
      | none => simp
      | some k => simp; omega

/-- C1: whenever a line stream decomposes into marker-free lines around a
single marker line, the scanner of `clean_test_utils.py` starts at that
marker line with depth 1 and returns as end index exactly the first
subsequent line at which the per-line running brace balance reaches 0
(returning nothing when it never does); and any index produced by that
first-crossing search is bounded, zeroes the running depth, and is minimal. -/
theorem c1_scanner_first_crossing (pre : List (List Char)) (m : List Char)
    (post : List (List Char))
    (h1 : ∀ l ∈ pre, containsSub markerStr l = false)
    (h2 : containsSub markerStr m = true)
    (h3 : ∀ l ∈ post, containsSub markerStr l = false) :
    findSpan (pre ++ m :: post) =
      (firstZero braceDelta 1 post).map
        (fun k => (pre.length, pre.length + 1 + k)) ∧
    ∀ (bc : Int) (ls : List (List Char)) (k : Nat),
      firstZero braceDelta bc ls = some k →
        k < ls.length ∧ runningDepth braceDelta bc ls (k + 1) = 0 ∧
        ∀ j, j < k → runningDepth braceDelta bc ls (j + 1) ≠ 0 := by
  constructor
  · show scanResp (pre ++ m :: post) 0 none 0 = _
    rw [scanResp_no_marker_append pre (m :: post) 0 0 h1]
    show (if containsSub markerStr m = true then _ else _) = _
    rw [if_pos (by simp [h2])]
    simp only [Nat.zero_add]
    rw [scanResp_counting post (pre.length + 1) pre.length 1 h3]
  · exact fun bc ls k => firstZero_spec braceDelta ls bc k

/-- Witness for C1 at a concrete two-line stream: the marker line followed
by a single closing line, which the scanner ends at. -/
theorem c1_scanner_first_crossing_witness :
    findSpan ([] ++ markerStr :: ["\x7d".data]) =
      (firstZero braceDelta 1 ["\x7d".data]).map
        (fun k => ((0 : Nat), 0 + 1 + k)) :=
  (c1_scanner_first_crossing [] markerStr ["\x7d".data]
    (by decide) (by decide) (by decide)).1

/-- C3: when no line contains the start marker, or the running brace
balance after the marker never returns to 0 before the stream ends, the
repair returns the report instead of a rewritten document (the script
prints the message and returns without writing). -/
theorem c3_unterminated_no_write (lines : List (List Char))
    (h : (∀ l ∈ lines, containsSub markerStr l = false) ∨
      (∃ pre m post, lines = pre ++ m :: post ∧
        (∀ l ∈ pre, containsSub markerStr l = false) ∧
        containsSub markerStr m = true ∧
        (∀ l ∈ post, containsSub markerStr l = false) ∧
        ∀ k, k < post.length → runningDepth braceDelta 1 post (k + 1) ≠ 0)) :
    fix_test_utils_comprehensive lines =
      .error "Could not find responses object".data := by
  have hspan : findSpan lines = none := by
    cases h with
    | inl hnone =>
      show scanResp lines 0 none 0 = none
      calc scanResp lines 0 none 0
          = scanResp (lines ++ []) 0 none 0 := by rw [List.append_nil]
        _ = scanResp [] (0 + lines.length) none 0 :=
            scanResp_no_marker_append lines [] 0 0 hnone
        _ = none := rfl
    | inr hsome =>
      obtain ⟨pre, m, post, rfl, hpre, hm, hpost, hdep⟩ := hsome
      show scanResp (pre ++ m :: post) 0 none 0 = none
      rw [scanResp_no_marker_append pre (m :: post) 0 0 hpre]
      show (if containsSub markerStr m = true then _ else _) = none
      rw [if_pos (by simp [hm])]
      simp only [Nat.zero_add]
      rw [scanResp_counting post (pre.length + 1) pre.length 1 hpost]
      rw [firstZero_eq_none braceDelta post 1 hdep]
      rfl
  unfold fix_test_utils_comprehensive
  rw [hspan]

/-- Witness for C3: a one-line stream without the marker is reported, not
rewritten. -/
theorem c3_unterminated_no_write_witness :
    fix_test_utils_comprehensive ["abc".data] =
      .error "Could not find responses object".data :=
  c3_unterminated_no_write ["abc".data] (Or.inl (by decide))

/-! ### Span replacement -/

/-- C5: replacing the span `[s, e]` by `newL` yields a stream of length
`lines.length - (e - s + 1) + newL.length`. -/
theorem c5_replace_span_length (lines : List (List Char)) (s e : Nat)
    (newL : List (List Char)) (h1 : s ≤ e) (h2 : e < lines.length) :
    (replace_span lines s e newL).length =
      lines.length - (e - s + 1) + newL.length := by
  simp only [replace_span, List.length_append, List.length_take, List.length_drop]
  omega

/-- Witness for C5 on a three-line stream with a one-line span and a
two-line replacement. -/
theorem c5_replace_span_length_witness :
    (replace_span ["a".data, "b".data, "c".data] 1 1 ["x".data, "y".data]).length =
      3 - (1 - 1 + 1) + 2 :=
  c5_replace_span_length ["a".data, "b".data, "c".data] 1 1 ["x".data, "y".data]
    (by decide) (by decide)

/-- C6: span replacement keeps every line before the span and every line
after it unchanged and in order, with the replacement lines sitting between
them at the span's position. -/
theorem c6_replace_span_frame (lines : List (List Char)) (s e : Nat)
    (newL : List (List Char)) (h1 : s ≤ e) (h2 : e < lines.length) :
    (∀ i, i < s → (replace_span lines s e newL)[i]? = lines[i]?) ∧
    (∀ j, j < newL.length → (replace_span lines s e newL)[s + j]? = newL[j]?) ∧
    (∀ j, (replace_span lines s e newL)[s + newL.length + j]? = lines[e + 1 + j]?) := by
  have hs : (lines.take s).length = s := by
    simp only [List.length_take]; omega
  refine ⟨?_, ?_, ?_⟩
  · intro i hi
    rw [replace_span, List.append_assoc,
      List.getElem?_append_left (by rw [hs]; exact hi), List.getElem?_take]
    rw [if_pos hi]
  · intro j hj
    rw [replace_span, List.append_assoc,
      List.getElem?_append_right (by rw [hs]; omega), hs]
    have h3 : s + j - s = j := by omega
    rw [h3, List.getElem?_append_left hj]
  · intro j
    rw [replace_span, List.append_assoc,
      List.getElem?_append_right (by rw [hs]; omega), hs]
    have h3 : s + newL.length + j - s = newL.length + j := by omega
    rw [h3, List.getElem?_append_right (by omega)]
    have h4 : newL.length + j - newL.length = j := by omega
    rw [h4, List.getElem?_drop]

/-- Witness for C6 at concrete indices around a one-line span. -/
theorem c6_replace_span_frame_witness :
    (replace_span ["a".data, "b".data, "c".data] 1 1 ["x".data, "y".data])[0]? =
      ["a".data, "b".data, "c".data][0]? ∧
    (replace_span ["a".data, "b".data, "c".data] 1 1 ["x".data, "y".data])[1 + 0]? =
      ["x".data, "y".data][0]? ∧
    (replace_span ["a".data, "b".data, "c".data] 1 1 ["x".data, "y".data])[1 + 2 + 0]? =
      ["a".data, "b".data, "c".data][1 + 1 + 0]? := by
  have h := c6_replace_span_frame ["a".data, "b".data, "c".data] 1 1
    ["x".data, "y".data] (by decide) (by decide)
  exact ⟨h.1 0 (by decide), h.2.1 0 (by decide), h.2.2 0⟩

/-! ### The join separator of `clean_test_utils.py` -/

theorem pyJoin_head_ne {a b : Char} (s1 s2 : List Char) (p q : List Char)
    (rest : List (List Char)) (h : a ≠ b) :
    pyJoin (a :: s1) (p :: q :: rest) ≠ pyJoin (b :: s2) (p :: q :: rest) := by
  intro heq
  simp only [pyJoin] at heq
  rw [List.append_assoc, List.append_assoc] at heq
  have h2 := List.append_cancel_left heq
  rw [List.cons_append, List.cons_append] at h2
  injection h2 with hhead _
  exact h hhead

/-- The two-line document whose first line is exactly the marker and whose
second line closes the brace: the scanner finds the span `(0, 1)` here. -/
def c4Doc : List (List Char) :=
  [markerStr, "\x7d".data]

/-- C4 (failing input): on `c4Doc` the repair keeps no original lines and
writes exactly the replacement block joined with `'\\n'` — the literal
two-character backslash-`n` separator of line 127 of the source — which
differs from the same lines joined with the original newline separator, so
the written document is not the split lines re-joined with `'\n'`. -/
theorem c4_join_separator_bug :
    fix_test_utils_comprehensive c4Doc =
      .ok (pyJoin "\\n".data newResponses) ∧
    pyJoin "\\n".data newResponses ≠ pyJoin "\n".data newResponses := by
  constructor
  · rfl
  · exact pyJoin_head_ne _ _ _ _ _ (by decide)

/-! ### The scenario of C2 -/

/-- The input lines of the spec's scanner scenario. -/
def scenarioLines : List (List Char) :=
  ["foo: (args) => (\x7b".data, "  a: 1,".data, "\x7d,".data]

/-- C2 (counterexample): on the scenario lines, a scanner balancing `(`
against `)` started at depth 1 on line 0 never sees the depth return to 0 —
whether the count starts after line 0 (the spec's default convention) or on
line 0 itself — so it cannot return line index 2; the closing parenthesis
is missing from the input, which is the very defect being repaired. -/
theorem c2_paren_scan_counterexample :
    locate_balanced_span scenarioLines 0 '(' ')' 1 = none ∧
    firstZero parenDelta 1 scenarioLines = none ∧
    ¬ locate_balanced_span scenarioLines 0 '(' ')' 1 = some 2 := by
  refine ⟨by decide, by decide, by decide⟩

/-- C2 (amended): the code's scan loop, entered after line 0 with brace
depth 1, stops at line index 2 — the first line where the running brace
count reaches 0 and the stripped line equals `},` — and rewrites that line
to `}),`, consuming nothing further. -/
theorem c2_brace_scan_stops_at_line_two :
    scanClose 1 1 ["  a: 1,".data, "\x7d,".data] =
      (["  a: 1,".data, "\x7d),".data], some 2, []) := by
  decide

/-! ### Termination and transparency of the `fix_test_utils_syntax.py` loop -/

theorem procAux_length :
    ∀ (lines : List (List Char)) (st : Option Int),
      (procAux st lines).length = lines.length := by
  intro lines
  induction lines with
  | nil => intro st; cases st <;> rfl
  | cons l ls ih =>
    intro st
    cases st with
    | none =>
      by_cases h : startsArrow l = true
      · simp [procAux, h, ih]
      · simp [procAux, h, ih]
    | some bc =>
      by_cases h : bc + braceDelta l = 0 ∧ pyStrip l = "\x7d,".data
      · simp [procAux, h, ih]
      · simp [procAux, h, ih]

theorem procAux_noClose :
    ∀ (ls : List (List Char)) (bc : Int), noCloseB bc ls = true →
      procAux (some bc) ls = ls := by
  intro ls
  induction ls with
  | nil => intro bc _; rfl
  | cons l ls ih =>
    intro bc h
    simp only [noCloseB, Bool.and_eq_true, Bool.not_eq_true'] at h
    obtain ⟨hfire, hrest⟩ := h
    have hcond : ¬ (bc + braceDelta l = 0 ∧ pyStrip l = "\x7d,".data) := by
      intro hc
      rw [decide_eq_false_iff_not] at hfire
      exact hfire hc
    simp only [procAux, if_neg hcond]
    rw [ih (bc + braceDelta l) hrest]

/-- C10: the scan loop handles each line exactly once (the output always
has the input's length) and, when a block is entered at the head line but
the closing pattern (brace balance 0 together with a stripped `},` line)
never fires, it consumes every remaining line unchanged and completes
normally. -/
theorem c10_scan_terminates_totally (l : List Char) (ls : List (List Char))
    (h1 : startsArrow l = true) (h2 : noCloseB 1 ls = true) :
    fixTestUtilsSyntax (l :: ls) = l :: ls ∧
    ∀ (st : Option Int) (lines : List (List Char)),
      (procAux st lines).length = lines.length := by
  constructor
  · show procAux none (l :: ls) = l :: ls
    show (if startsArrow l = true then _ else _) = _
    rw [if_pos h1]
    rw [procAux_noClose ls 1 h2]
  · exact fun st lines => procAux_length lines st

/-- Witness for C10: a matched arrow-function opener followed by a line
that closes the brace but is not the `},` pattern, so the block never
closes and the loop drains the stream unchanged. -/
theorem c10_scan_terminates_totally_witness :
    fixTestUtilsSyntax ["'x': (a) => (\x7b".data, "\x7d".data] =
      ["'x': (a) => (\x7b".data, "\x7d".data] :=
  (c10_scan_terminates_totally "'x': (a) => (\x7b".data ["\x7d".data]
    (by decide) (by decide)).1

/-! ### Lemmas about the pattern engine -/

theorem matchNil_consumed :
    ∀ (ps : List PItem) (st : GStack) (g : Groups) (c : Nat) (g' : Groups),
      matchNil ps st g = some (c, g') → c = 0 := by
  intro ps
  induction ps with
  | nil =>
    intro st g c g' h
    simp only [matchNil, Option.some.injEq, Prod.mk.injEq] at h
    exact h.1.symm
  | cons p ps ih =>
    intro st g c g' h
    cases p with
    | lit c' => simp [matchNil] at h
    | cls q => simp [matchNil] at h
    | eol => exact ih st g c g' h
    | star q => exact ih st g c g' h
    | openG => exact ih ([] :: st) g c g' h
    | closeG n =>
      cases st with
      | nil => simp [matchNil] at h
      | cons r0 st' => exact ih st' ((n, r0) :: g) c g' h

theorem matchCons_le (x : Char) (xs : List Char)
    (recTail : List PItem → GStack → Groups → Option (Nat × Groups)) (L : Nat)
    (hrec : ∀ ps st g c g', recTail ps st g = some (c, g') → c ≤ L) :
    ∀ (ps : List PItem) (st : GStack) (g : Groups) (c : Nat) (g' : Groups),
      matchCons x xs recTail ps st g = some (c, g') → c ≤ L + 1 := by
  intro ps
  induction ps with
  | nil =>
    intro st g c g' h
    simp only [matchCons, Option.some.injEq, Prod.mk.injEq] at h
    omega
  | cons p ps ih =>
    intro st g c g' h
    cases p with
    | lit c' =>
      simp only [matchCons] at h
      split at h
      · simp only [Option.map_eq_some'] at h
        obtain ⟨⟨c1, g1⟩, hr, he⟩ := h
        have := hrec ps st g c1 g1 hr
        simp only [Prod.mk.injEq] at he
        omega
      · simp at h
    | cls q =>
      simp only [matchCons] at h
      split at h
      · simp only [Option.map_eq_some'] at h
        obtain ⟨⟨c1, g1⟩, hr, he⟩ := h
        have := hrec ps st g c1 g1 hr
        simp only [Prod.mk.injEq] at he
        omega
      · simp at h
    | eol =>
      simp only [matchCons] at h
      split at h
      · exact ih st g c g' h
      · simp at h
    | star q =>
      simp only [matchCons] at h
      split at h
      · rename_i r hr
        split at hr
        · simp only [Option.map_eq_some'] at hr
          obtain ⟨⟨c1, g1⟩, hr1, he⟩ := hr
          have hb := hrec (.star q :: ps) st g c1 g1 hr1
          rw [← he] at h
          simp only [Option.some.injEq, Prod.mk.injEq] at h
          omega
        · simp at hr
      · exact ih st g c g' h
    | openG => exact ih ((x :: xs) :: st) g c g' h
    | closeG n =>
      cases st with
      | nil => simp [matchCons] at h
      | cons r0 st' =>
        exact ih st' ((n, r0.take (r0.length - (xs.length + 1))) :: g) c g' h

theorem matchFrom_le :
    ∀ (s : List Char) (ps : List PItem) (st : GStack) (g : Groups)
      (c : Nat) (g' : Groups),
      matchFrom s ps st g = some (c, g') → c ≤ s.length := by
  intro s
  induction s with
  | nil =>
    intro ps st g c g' h
    have := matchNil_consumed ps st g c g' h
    omega
  | cons x xs ih =>
    intro ps st g c g' h
    have := matchCons_le x xs (matchFrom xs) xs.length
      (fun ps st g c g' h' => ih ps st g c g' h') ps st g c g' h
    simpa using this

theorem subGo_fuel (ru : Rule) :
    ∀ (f1 : Nat) (s : List Char) (f2 : Nat),
      s.length ≤ f1 → s.length ≤ f2 → subGo ru f1 s = subGo ru f2 s := by
  intro f1
  induction f1 with
  | zero =>
    intro s f2 h1 _
    have hs : s = [] := List.eq_nil_of_length_eq_zero (Nat.le_zero.mp h1)
    subst hs
    cases f2 <;> rfl
  | succ f1 ih =>
    intro s f2 h1 h2
    cases s with
    | nil => cases f2 <;> rfl
    | cons x xs =>
      cases f2 with
      | zero => simp at h2
      | succ f2' =>
        simp only [List.length_cons] at h1 h2
        cases hm : matchFrom (x :: xs) ru.pat [] [] with
        | none =>
          simp only [subGo, hm]
          rw [ih xs f2' (by omega) (by omega)]
        | some r =>
          obtain ⟨n, g⟩ := r
          cases n with
          | zero =>
            simp only [subGo, hm]
            rw [ih xs f2' (by omega) (by omega)]
          | succ n' =>
            simp only [subGo, hm]
            rw [ih (xs.drop n') f2'
              (by simp only [List.length_drop]; omega)
              (by simp only [List.length_drop]; omega)]

theorem countGo_fuel (ru : Rule) :
    ∀ (f1 : Nat) (s : List Char) (f2 : Nat),
      s.length ≤ f1 → s.length ≤ f2 → countGo ru f1 s = countGo ru f2 s := by
  intro f1
  induction f1 with
  | zero =>
    intro s f2 h1 _
    have hs : s = [] := List.eq_nil_of_length_eq_zero (Nat.le_zero.mp h1)
    subst hs
    cases f2 <;> rfl
  | succ f1 ih =>
    intro s f2 h1 h2
    cases s with
    | nil => cases f2 <;> rfl
    | cons x xs =>
      cases f2 with
      | zero => simp at h2
      | succ f2' =>
        simp only [List.length_cons] at h1 h2
        cases hm : matchFrom (x :: xs) ru.pat [] [] with
        | none =>
          simp only [countGo, hm]
          rw [ih xs f2' (by omega) (by omega)]
        | some r =>
          obtain ⟨n, g⟩ := r
          cases n with
          | zero =>
            simp only [countGo, hm]
            rw [ih xs f2' (by omega) (by omega)]
          | succ n' =>
            simp only [countGo, hm]
            rw [ih (xs.drop n') f2'
              (by simp only [List.length_drop]; omega)
              (by simp only [List.length_drop]; omega)]

theorem subAll_of_no_match (ru : Rule) :
    ∀ s, searchFrom ru.pat s = false → subAll ru s = s := by
  intro s
  induction s with
  | nil =>
    intro h
    simp only [searchFrom] at h
    cases hm : matchFrom [] ru.pat [] [] with
    | none => simp [subAll, subGo, hm]
    | some r => rw [hm] at h; simp at h
  | cons x xs ih =>
    intro h
    simp only [searchFrom, Bool.or_eq_false_iff] at h
    obtain ⟨h1, h2⟩ := h
    cases hm : matchFrom (x :: xs) ru.pat [] [] with
    | none =>
      simp only [subAll, List.length_cons, subGo, hm]
      rw [show subGo ru xs.length xs = subAll ru xs from rfl, ih h2]
    | some r => rw [hm] at h1; simp at h1

theorem subAll_of_count_zero (ru : Rule) :
    ∀ s, countMatches ru s = 0 → subAll ru s = s := by
  intro s
  induction s with
  | nil =>
    intro h
    simp only [countMatches, countGo] at h
    cases hm : matchFrom [] ru.pat [] [] with
    | none => simp [subAll, subGo, hm]
    | some r => rw [hm] at h; simp at h
  | cons x xs ih =>
    intro h
    cases hm : matchFrom (x :: xs) ru.pat [] [] with
    | none =>
      simp only [countMatches, List.length_cons, countGo, hm] at h
      simp only [subAll, List.length_cons, subGo, hm]
      rw [show subGo ru xs.length xs = subAll ru xs from rfl]
      rw [ih h]
    | some r =>
      obtain ⟨n, g⟩ := r
      cases n with
      | zero =>
        simp only [countMatches, List.length_cons, countGo, hm] at h
        omega
      | succ n' =>
        simp only [countMatches, List.length_cons, countGo, hm] at h
        omega

theorem matchFrom_lit_pos (c : Char) (ps : List PItem) :
    ∀ (s : List Char) (g : Groups),
      matchFrom s (.lit c :: ps) [] [] ≠ some (0, g) := by
  intro s g h
  cases s with
  | nil => simp [matchFrom, matchNil] at h
  | cons x xs =>
    simp only [matchFrom, matchCons] at h
    split at h
    · simp only [Option.map_eq_some'] at h
      obtain ⟨⟨c1, g1⟩, _, he⟩ := h
      simp only [Prod.mk.injEq] at he
      omega
    · simp at h

theorem subAll_decomp (ru : Rule)
    (h0 : ∀ (s : List Char) (g : Groups), matchFrom s ru.pat [] [] ≠ some (0, g)) :
    ∀ s, 0 < countMatches ru s →
      ∃ p m rest g, s = p ++ (m ++ rest) ∧
        matchFrom (m ++ rest) ru.pat [] [] = some (m.length, g) ∧
        subAll ru s = p ++ (ru.repl g ++ subAll ru rest) ∧
        countMatches ru s = countMatches ru rest + 1 := by
  intro s
  induction s with
  | nil =>
    intro h
    exfalso
    simp only [countMatches, countGo] at h
    cases hm : matchFrom [] ru.pat [] [] with
    | none => rw [hm] at h; simp at h
    | some r =>
      obtain ⟨n, g⟩ := r
      have hn := matchNil_consumed ru.pat [] [] n g hm
      subst hn
      exact h0 [] g hm
  | cons x xs ih =>
    intro h
    cases hm : matchFrom (x :: xs) ru.pat [] [] with
    | none =>
      have htail : 0 < countMatches ru xs := by
        simp only [countMatches, List.length_cons, countGo, hm] at h
        exact h
      obtain ⟨p, m, rest, g, hsplit, hmatch, hsub, hcount⟩ := ih htail
      refine ⟨x :: p, m, rest, g, ?_, hmatch, ?_, ?_⟩
      · rw [List.cons_append, ← hsplit]
      · simp only [subAll, List.length_cons, subGo, hm]
        rw [show subGo ru xs.length xs = subAll ru xs from rfl, hsub,
          List.cons_append]
        rfl
      · simp only [countMatches, List.length_cons, countGo, hm]
        exact hcount
    | some r =>
      obtain ⟨n, g⟩ := r
      cases n with
      | zero => exact absurd hm (h0 _ _)
      | succ n' =>
        have hle : n' + 1 ≤ xs.length + 1 := by
          have := matchFrom_le (x :: xs) ru.pat [] [] (n' + 1) g hm
          simpa using this
        have hmlen : (x :: xs.take n').length = n' + 1 := by
          simp only [List.length_cons, List.length_take]
          omega
        have hjoin : (x :: xs.take n') ++ xs.drop n' = x :: xs := by
          rw [List.cons_append, List.take_append_drop]
        refine ⟨[], x :: xs.take n', xs.drop n', g, ?_, ?_, ?_, ?_⟩
        · rw [List.nil_append, hjoin]
        · rw [hjoin, hmlen]
          exact hm
        · simp only [subAll, List.length_cons, subGo, hm]
          rw [List.nil_append]
          rw [subGo_fuel ru xs.length (xs.drop n') (xs.drop n').length
            (by simp only [List.length_drop]; omega) (Nat.le_refl _)]
        · simp only [countMatches, List.length_cons, countGo, hm]
          rw [countGo_fuel ru xs.length (xs.drop n') (xs.drop n').length
            (by simp only [List.length_drop]; omega) (Nat.le_refl _)]
          omega

/-- The explicit item form of the `catch` rule's pattern, used to expose
its leading literal. -/
theorem ruleCatch_pat_eq :
    ruleCatch.pat = PItem.lit 'c' ::
      [PItem.lit 'a', PItem.lit 't', PItem.lit 'c', PItem.lit 'h',
       PItem.star isSpaceChar, PItem.lit '(', PItem.star isSpaceChar,
       PItem.lit 'e', PItem.lit 'r', PItem.lit 'r', PItem.lit 'o',
       PItem.lit 'r', PItem.star isSpaceChar, PItem.lit ')'] := rfl

theorem ruleCatch_no_empty :
    ∀ (s : List Char) (g : Groups),
      matchFrom s ruleCatch.pat [] [] ≠ some (0, g) := by
  intro s g
  rw [ruleCatch_pat_eq]
  exact matchFrom_lit_pos 'c' _ s g

/-- C7: a text with exactly three occurrences of the `catch (error)`
matcher decomposes into three matched segments separated by match-free
text, and the one-pass rewrite replaces exactly the three matches by
`catch (_error)` while reproducing every other character verbatim. -/
theorem c7_catch_three_occurrences (t : List Char)
    (h : countMatches ruleCatch t = 3) :
    ∃ p0 m1 p1 m2 p2 m3 p3 : List Char,
      t = p0 ++ (m1 ++ (p1 ++ (m2 ++ (p2 ++ (m3 ++ p3))))) ∧
      (∃ g, matchFrom (m1 ++ (p1 ++ (m2 ++ (p2 ++ (m3 ++ p3)))))
          ruleCatch.pat [] [] = some (m1.length, g)) ∧
      (∃ g, matchFrom (m2 ++ (p2 ++ (m3 ++ p3)))
          ruleCatch.pat [] [] = some (m2.length, g)) ∧
      (∃ g, matchFrom (m3 ++ p3) ruleCatch.pat [] [] = some (m3.length, g)) ∧
      subAll ruleCatch t =
        p0 ++ ("catch (_error)".data ++ (p1 ++ ("catch (_error)".data ++
          (p2 ++ ("catch (_error)".data ++ p3))))) := by
  obtain ⟨p0, m1, r1, g1, ht, hm1, hs1, hc1⟩ :=
    subAll_decomp ruleCatch ruleCatch_no_empty t (by omega)
  have hcr1 : countMatches ruleCatch r1 = 2 := by omega
  obtain ⟨p1, m2, r2, g2, ht1, hm2, hs2, hc2⟩ :=
    subAll_decomp ruleCatch ruleCatch_no_empty r1 (by omega)
  have hcr2 : countMatches ruleCatch r2 = 1 := by omega
  obtain ⟨p2, m3, r3, g3, ht2, hm3, hs3, hc3⟩ :=
    subAll_decomp ruleCatch ruleCatch_no_empty r2 (by omega)
  have hcr3 : countMatches ruleCatch r3 = 0 := by omega
  have hr3 : subAll ruleCatch r3 = r3 := subAll_of_count_zero ruleCatch r3 hcr3
  have hrepl : ∀ g : Groups, ruleCatch.repl g = "catch (_error)".data :=
    fun _ => rfl
  refine ⟨p0, m1, p1, m2, p2, m3, r3, ?_, ?_, ?_, ?_, ?_⟩
  · rw [ht, ht1, ht2]
  · rw [← ht2, ← ht1]
    exact ⟨g1, hm1⟩
  · rw [← ht2]
    exact ⟨g2, hm2⟩
  · exact ⟨g3, hm3⟩
  · rw [hs1, hs2, hs3, hr3, hrepl g1, hrepl g2, hrepl g3]

/-- Witness for C7: three occurrences in a concrete text, transformed in
one pass. -/
theorem c7_catch_three_occurrences_witness :
    countMatches ruleCatch "catch (error)x catch( error )y catch (error)".data = 3 ∧
    ∃ p0 m1 p1 m2 p2 m3 p3 : List Char,
      "catch (error)x catch( error )y catch (error)".data =
        p0 ++ (m1 ++ (p1 ++ (m2 ++ (p2 ++ (m3 ++ p3))))) ∧
      (∃ g, matchFrom (m1 ++ (p1 ++ (m2 ++ (p2 ++ (m3 ++ p3)))))
          ruleCatch.pat [] [] = some (m1.length, g)) ∧
      (∃ g, matchFrom (m2 ++ (p2 ++ (m3 ++ p3)))
          ruleCatch.pat [] [] = some (m2.length, g)) ∧
      (∃ g, matchFrom (m3 ++ p3) ruleCatch.pat [] [] = some (m3.length, g)) ∧
      subAll ruleCatch "catch (error)x catch( error )y catch (error)".data =
        p0 ++ ("catch (_error)".data ++ (p1 ++ ("catch (_error)".data ++
          (p2 ++ ("catch (_error)".data ++ p3))))) :=
  ⟨by decide,
   c7_catch_three_occurrences "catch (error)x catch( error )y catch (error)".data
     (by decide)⟩

/-- C8: when none of the pipeline's matchers occurs in the text, the
pipeline (and the empty pipeline) returns the text unchanged, and the
repair reports `False` without writing the file. -/
theorem c8_no_match_identity (fs : FS) (p : String) (content : List Char)
    (hread : readFS fs p = some content)
    (hnm : ∀ ru ∈ syntaxRules, searchFrom ru.pat content = false) :
    apply_rules syntaxRules content = content ∧
    apply_rules [] content = content ∧
    fix_file_syntax_errors fs p = (false, fs) := by
  have hid : ∀ rules : List Rule,
      (∀ ru ∈ rules, searchFrom ru.pat content = false) →
      apply_rules rules content = content := by
    intro rules
    induction rules with
    | nil => intro _; rfl
    | cons r rs ih =>
      intro hh
      show List.foldl (fun t ru => subAll ru t) content (r :: rs) = content
      rw [List.foldl_cons,
        subAll_of_no_match r content (hh r (by simp))]
      exact ih fun ru hru => hh ru (by simp [hru])
  refine ⟨hid syntaxRules hnm, rfl, ?_⟩
  simp only [fix_file_syntax_errors, hread]
  rw [hid syntaxRules hnm]
  simp

/-- Witness for C8: a one-file system holding an empty document, in which
no matcher occurs; the repair reports `False` and changes nothing. -/
theorem c8_no_match_identity_witness :
    apply_rules syntaxRules [] = ([] : List Char) ∧
    fix_file_syntax_errors [("a.ts", ([] : List Char))] "a.ts" =
      (false, [("a.ts", ([] : List Char))]) := by
  have h := c8_no_match_identity [("a.ts", ([] : List Char))] "a.ts" []
    (by decide) (by decide)
  exact ⟨h.1, h.2.2⟩

/-! ### The batch driver -/

theorem readFS_writeFS_ne (fs : FS) (p : String) (c : List Char) (q : String)
    (h : q ≠ p) : readFS (writeFS fs p c) q = readFS fs q := by
  induction fs with
  | nil => rfl
  | cons e fs ih =>
    obtain ⟨k, v⟩ := e
    have hmap : writeFS ((k, v) :: fs) p c =
        (if k = p then (k, c) else (k, v)) :: writeFS fs p c := rfl
    rw [hmap]
    by_cases hk : k = p
    · rw [if_pos hk]
      subst hk
      have hqk : (q == k) = false := beq_eq_false_iff_ne.mpr h
      simp only [readFS, List.lookup, hqk]
      exact ih
    · rw [if_neg hk]
      cases hqk : q == k with
      | true => simp only [readFS, List.lookup, hqk]
      | false =>
        simp only [readFS, List.lookup, hqk]
        exact ih

theorem fix_file_outcome_congr (fs1 fs2 : FS) (p : String)
    (h : readFS fs1 p = readFS fs2 p) :
    (fix_file_syntax_errors fs1 p).1 = (fix_file_syntax_errors fs2 p).1 := by
  simp only [fix_file_syntax_errors, h]
  cases readFS fs2 p with
  | none => rfl
  | some c => by_cases hc : apply_rules syntaxRules c = c <;> simp [hc]

theorem fix_file_frame (fs : FS) (p q : String) (h : q ≠ p) :
    readFS (fix_file_syntax_errors fs p).2 q = readFS fs q := by
  simp only [fix_file_syntax_errors]
  cases readFS fs p with
  | none => rfl
  | some c =>
    by_cases hc : apply_rules syntaxRules c = c
    · simp [hc]
    · simp only [if_neg hc]
      exact readFS_writeFS_ne fs p (apply_rules syntaxRules c) q h

/-- C9: the batch driver produces one outcome per listed file no matter
what the earlier outcomes were; files outside the list keep their contents;
with distinct paths each file's outcome is exactly what the repair computes
on that file's original content; and a missing file is reported as `False`
and changes nothing. -/
theorem c9_batch_isolation (fs : FS) (ps : List String) (hnd : ps.Nodup) :
    (runAll fs ps).1.length = ps.length ∧
    (∀ q, q ∉ ps → readFS (runAll fs ps).2 q = readFS fs q) ∧
    (∀ k (hk : k < ps.length),
      (runAll fs ps).1[k]? =
        some (fix_file_syntax_errors fs (ps.get ⟨k, hk⟩)).1) ∧
    (∀ p, readFS fs p = none → fix_file_syntax_errors fs p = (false, fs)) := by
  induction ps generalizing fs with
  | nil =>
    exact ⟨rfl, fun q _ => rfl, fun k hk => absurd hk (by simp),
      fun p hp => by simp [fix_file_syntax_errors, hp]⟩
  | cons p ps ih =>
    rw [List.nodup_cons] at hnd
    obtain ⟨hpnotin, hnd'⟩ := hnd
    obtain ⟨ihlen, ihframe, ihget, _⟩ :=
      ih (fix_file_syntax_errors fs p).2 hnd'
    refine ⟨?_, ?_, ?_, fun r hr => by simp [fix_file_syntax_errors, hr]⟩
    · simp only [runAll, List.length_cons]
      rw [ihlen]
    · intro q hq
      have hq1 : q ≠ p := fun he => hq (by simp [he])
      have hq2 : q ∉ ps := fun he => hq (by simp [he])
      show readFS (runAll (fix_file_syntax_errors fs p).2 ps).2 q = readFS fs q
      rw [ihframe q hq2]
      exact fix_file_frame fs p q hq1
    · intro k hk
      match k with
      | 0 =>
        simp only [runAll, List.getElem?_cons_zero]
        rfl
      | k' + 1 =>
        have hk' : k' < ps.length := by
          simp only [List.length_cons] at hk
          omega
        have hstep : (runAll fs (p :: ps)).1[k' + 1]? =
            (runAll (fix_file_syntax_errors fs p).2 ps).1[k']? := by
          simp only [runAll, List.getElem?_cons_succ]
        rw [hstep, ihget k' hk']
        have hmem : ps.get ⟨k', hk'⟩ ∈ ps := List.get_mem ps k' hk'
        have hne : ps.get ⟨k', hk'⟩ ≠ p := fun he => hpnotin (he ▸ hmem)
        rw [fix_file_outcome_congr (fix_file_syntax_errors fs p).2 fs
          (ps.get ⟨k', hk'⟩) (fix_file_frame fs p _ hne)]
        rfl

/-- Witness for C9 on an empty file system and two distinct paths: both
files are attempted (two outcomes), and an unlisted path is untouched. -/
theorem c9_batch_isolation_witness :
    (runAll ([] : FS) ["a.ts", "b.ts"]).1.length = 2 ∧
    readFS (runAll ([] : FS) ["a.ts", "b.ts"]).2 "c.ts" = readFS ([] : FS) "c.ts" ∧
    fix_file_syntax_errors ([] : FS) "a.ts" = (false, ([] : FS)) := by
  have h := c9_batch_isolation ([] : FS) ["a.ts", "b.ts"] (by decide)
  exact ⟨h.1, h.2.1 "c.ts" (by decide), h.2.2.2 "a.ts" (by decide)⟩

end Repo
